import Mathlib

/-!
Verification development for the script-exporter repository.

The Go sources are shallowly embedded below: pure string processing is
translated function-by-function (`fields` for `strings.Fields`,
`scanLines` for `bufio.Scanner` line splitting, `parseInt64` /
`parseFloat` for `strconv.ParseInt` / `strconv.ParseFloat`,
`makeValidPromName`, `parseTcollectorValue`, `translateOpenTsdb`,
`dpointsToMetrics`, `regatherer.Gather`, `runCommand`), and the
concurrent dispatcher (`ScriptHandler.Start`) is embedded as a step
relation whose atomic steps are exactly the mutex-protected sections of
the Go code.

Strings are modelled as lists of characters (`Str`); Go byte-wise string
comparison coincides with codepoint-lexicographic comparison for UTF-8
encoded strings, which is the order used on `List Char`.  Whitespace and
letter classification is modelled over the character sets the Go
standard library uses, restricted to the ASCII range plus the two
Latin-1 space characters `strings.Fields` recognises.  `float64` values
are modelled as exact decimal numbers `mant * 10 ^ exp10`; IEEE rounding
and range overflow of `strconv.ParseFloat` are not modelled (all claims
below are about exact small decimal inputs).
-/

namespace ScriptExporter

/-- Strings, modelled as lists of characters. -/
abbrev Str := List Char

/-- Characters treated as white space by `strings.Fields` and
`strings.TrimSpace` (`unicode.IsSpace`), restricted to ASCII plus the
two Latin-1 space characters. -/
def isGoSpace (c : Char) : Bool :=
  c = ' ' || c = '\t' || c = '\n' || c = '\x0b' || c = '\x0c' || c = '\r' ||
  c = '\u0085' || c = ' '

/-- Worker for `fields`: splits the remaining characters on runs of white
space, `acc` holding the (reversed) current field. -/
def fieldsGo : Str → Str → List Str
  | [], acc => if acc.isEmpty then [] else [acc.reverse]
  | c :: cs, acc =>
    if isGoSpace c then
      if acc.isEmpty then fieldsGo cs [] else acc.reverse :: fieldsGo cs []
    else fieldsGo cs (c :: acc)

/-- Embedding of Go `strings.Fields`: split around runs of white space,
returning the (non-empty) fields. -/
def fields (s : Str) : List Str := fieldsGo s []

/-- Whether a line is blank, i.e. `strings.TrimSpace(line) == ""`. -/
def isBlank (l : Str) : Bool := l.all isGoSpace

/-- Split a string at every newline character; `acc` holds the (reversed)
current line. -/
def splitNl : Str → Str → List Str
  | [], acc => [acc.reverse]
  | '\n' :: cs, acc => acc.reverse :: splitNl cs []
  | c :: cs, acc => splitNl cs (c :: acc)

/-- Strip one trailing carriage return, as `bufio.ScanLines` does. -/
def dropCR (l : Str) : Str := if l.getLast? = some '\r' then l.dropLast else l

/-- Embedding of the line sequence produced by `bufio.NewScanner` with the
default split function: tokens are newline-separated lines with any
trailing carriage return removed; a final newline does not produce an
extra empty token, and empty input produces no tokens.  (The scanner's
64KB maximum token size is not modelled.) -/
def scanLines (s : Str) : List Str :=
  if s.isEmpty then []
  else
    let parts := splitNl s []
    let parts := if s.getLast? = some '\n' then parts.dropLast else parts
    parts.map dropCR

/-- Numeric value of a string of decimal digits. -/
def natOfDigits (s : Str) : Nat :=
  s.foldl (fun a c => a * 10 + (c.toNat - 48)) 0

/-- Whether all characters are decimal digits and there is at least one. -/
def allDigits (s : Str) : Bool := !s.isEmpty && s.all Char.isDigit

/-- Embedding of Go `strconv.ParseInt(s, 10, 64)`: optional sign, decimal
digits, value constrained to the int64 range (out of range is an error,
as the Go caller treats `ErrRange` as failure). -/
def parseInt64 (s : Str) : Option Int :=
  match s with
  | '+' :: rest =>
    if allDigits rest && natOfDigits rest ≤ 2 ^ 63 - 1 then
      some (natOfDigits rest : Int)
    else none
  | '-' :: rest =>
    if allDigits rest && natOfDigits rest ≤ 2 ^ 63 then
      some (-(natOfDigits rest : Int))
    else none
  | _ =>
    if allDigits s && natOfDigits s ≤ 2 ^ 63 - 1 then
      some (natOfDigits s : Int)
    else none

/-- A Go `float64` value as produced by `strconv.ParseFloat`, modelled
exactly: a finite value is the decimal number `mant * 10 ^ exp10`
(IEEE-754 rounding and overflow are not modelled). -/
inductive GoFloat where
  | finite (mant : Int) (exp10 : Int)
  | inf (neg : Bool)
  | nan
deriving DecidableEq

/-- Consume an optional leading sign, returning (negative?, rest). -/
def parseSign : Str → Bool × Str
  | '+' :: r => (false, r)
  | '-' :: r => (true, r)
  | s => (false, s)

/-- Longest digit run at the front of the string, and the rest. -/
def takeDigits : Str → Str × Str
  | [] => ([], [])
  | c :: cs =>
    if c.isDigit then
      let p := takeDigits cs
      (c :: p.1, p.2)
    else ([], c :: cs)

/-- ASCII lower-casing of a string, for case-insensitive comparison. -/
def lowerStr (s : Str) : Str := s.map Char.toLower

/-- The special values recognised by `strconv.ParseFloat`: optionally
signed infinity spellings and unsigned `nan`, case-insensitively. -/
def parseFloatSpecial (s : Str) : Option GoFloat :=
  match s with
  | '+' :: r =>
    if lowerStr r = "inf".toList || lowerStr r = "infinity".toList then
      some (.inf false)
    else none
  | '-' :: r =>
    if lowerStr r = "inf".toList || lowerStr r = "infinity".toList then
      some (.inf true)
    else none
  | _ =>
    if lowerStr s = "inf".toList || lowerStr s = "infinity".toList then
      some (.inf false)
    else if lowerStr s = "nan".toList then some .nan
    else none

/-- Embedding of Go 1.8 `strconv.ParseFloat(s, 64)` on its decimal
grammar: special spellings, else `[sign] digits [. digits] [e [sign]
digits]` with at least one mantissa digit and nothing left over.  The
resulting value is kept as an exact decimal `mant * 10 ^ exp10`. -/
def parseFloat (s : Str) : Option GoFloat :=
  match parseFloatSpecial s with
  | some f => some f
  | none =>
    let sg := parseSign s
    let ipp := takeDigits sg.2
    let frp := match ipp.2 with
      | '.' :: r => takeDigits r
      | _ => ([], ipp.2)
    if ipp.1.isEmpty && frp.1.isEmpty then none
    else
      let mag : Int := natOfDigits (ipp.1 ++ frp.1)
      let mant : Int := if sg.1 then -mag else mag
      match frp.2 with
      | [] => some (.finite mant (-(frp.1.length : Int)))
      | c :: r =>
        if c = 'e' || c = 'E' then
          let esg := parseSign r
          let edp := takeDigits esg.2
          if edp.1.isEmpty || !edp.2.isEmpty then none
          else
            let emag : Int := natOfDigits edp.1
            let ev : Int := if esg.1 then -emag else emag
            some (.finite mant (ev - (frp.1.length : Int)))
        else none

/-- Modelled from the spec: the foreign format's identifier validity
check (`opentsdb.ValidTSDBString` from the external bosun library, whose
source is not under src/): non-empty, every character a letter, a digit,
or one of `-`, `_`, `.`, `/`. -/
def ValidTSDBString (s : Str) : Bool :=
  !s.isEmpty &&
  s.all (fun c =>
    c.isAlpha || c.isDigit || c = '-' || c = '_' || c = '.' || c = '/')

/-- Split a string at the first `=` character, if any. -/
def splitFirstEq : Str → Option (Str × Str)
  | [] => none
  | c :: rest =>
    if c = '=' then some ([], rest)
    else (splitFirstEq rest).map (fun p => (c :: p.1, p.2))

/-- Modelled from the spec: tag-token parsing (`opentsdb.ParseTags` from
the external bosun library, whose source is not under src/): a token
must be `key=value` with non-empty key and value; anything else is a
malformed tag token and an error. -/
def parseTagToken (tok : Str) : Option (Str × Str) :=
  match splitFirstEq tok with
  | some p => if !p.1.isEmpty && !p.2.isEmpty then some p else none
  | none => none

/-- Insert a key/value pair into a key-sorted association list,
overriding any existing binding of the key.  This is the canonical
representation used for Go maps (`opentsdb.TagSet` and the label map),
whose iteration order is unspecified. -/
def insertTag (k v : Str) : List (Str × Str) → List (Str × Str)
  | [] => [(k, v)]
  | p :: rest =>
    if k = p.1 then (k, v) :: rest
    else if k ≤ p.1 then (k, v) :: p :: rest
    else p :: insertTag k v rest

/-- An OpenTSDB data point, as in `opentsdb.DataPoint` (bosun).  `Value`
is stored by `parseTcollectorValue` as the parsed float; tags are kept
in canonical key-sorted form. -/
structure DataPoint where
  Metric : Str
  Timestamp : Int
  Value : GoFloat
  Tags : List (Str × Str)
deriving DecidableEq

/-- Errors produced by the OpenTSDB translation path, mirroring the
`fmt.Errorf` cases of `parseTcollectorValue` / `translateOpenTsdb`. -/
inductive TransErr where
  | badLine (line : Str)
  | badTimestamp (s : Str)
  | badValue (s : Str)
  | badMetric (s : Str)
  | badTag (metric tok : Str)
deriving DecidableEq

/-- The tag-merging loop of `parseTcollectorValue`: parse each token
after the third field and merge it into the tag set (`tags.Merge(ts)`),
failing on the first malformed token. -/
def mergeTags (metric : Str) (acc : List (Str × Str)) :
    List Str → Except TransErr (List (Str × Str))
  | [] => .ok acc
  | tok :: rest =>
    match parseTagToken tok with
    | none => .error (.badTag metric tok)
    | some p => mergeTags metric (insertTag p.1 p.2 acc) rest

/-- Embedding of `parseTcollectorValue` (src/main.go): split the line
into fields; fewer than three fields is a bad line; field 1 must parse
as an int64 timestamp, field 2 as a float value, field 0 must be a valid
OpenTSDB metric name; remaining fields are tag tokens. -/
def parseTcollectorValue (line : Str) : Except TransErr DataPoint :=
  if (fields line).length < 3 then .error (.badLine line)
  else
    match parseInt64 ((fields line).getD 1 []) with
    | none => .error (.badTimestamp ((fields line).getD 1 []))
    | some ts =>
      match parseFloat ((fields line).getD 2 []) with
      | none => .error (.badValue ((fields line).getD 2 []))
      | some v =>
        if !ValidTSDBString ((fields line).getD 0 []) then
          .error (.badMetric ((fields line).getD 0 []))
        else
          match mergeTags ((fields line).getD 0 []) [] ((fields line).drop 3) with
          | .error e => .error e
          | .ok tags =>
            .ok { Metric := (fields line).getD 0 [], Timestamp := ts,
                  Value := v, Tags := tags }

/-- Metric kinds of the prometheus client (`prometheus.ValueType`). -/
inductive ValueType where
  | counterValue
  | gaugeValue
  | untypedValue
deriving DecidableEq

/-- A constructed constant metric, as built by
`prometheus.MustNewConstMetric(prometheus.NewDesc(name, help, nil,
labels), kind, value)`.  Labels are the const-label map in canonical
key-sorted form.  Note the structure has no timestamp field: the code
builds the metric without one. -/
structure Metric where
  name : Str
  help : Str
  labels : List (Str × Str)
  kind : ValueType
  value : GoFloat
deriving DecidableEq

/-- The per-character translation of `makeValidPromName` (src/main.go).
`i` is the value of the closure's counter after the `i++` that the Go
code performs before the tests, so the first character is examined with
`i = 1`. -/
def promMapRune (i : Nat) (r : Char) : Char :=
  if ('a' ≤ r && r ≤ 'z') || ('A' ≤ r && r ≤ 'Z') || r = '_' then r
  else if i > 0 && ('0' ≤ r && r ≤ '9') then r
  else '_'

/-- The `strings.Map` traversal of `makeValidPromName`, threading the
closure counter: the counter is incremented before each character is
examined. -/
def promMapGo (i : Nat) : Str → Str
  | [] => []
  | c :: cs => promMapRune (i + 1) c :: promMapGo (i + 1) cs

/-- Embedding of `makeValidPromName` (src/main.go): map every character
through the rune function above, with the counter starting at 0. -/
def makeValidPromName (s : Str) : Str := promMapGo 0 s

/-- The label map built by `dpointsToMetrics` for one data point:
`labels[makeValidPromName(k)] = v` for every tag `k=v` (keys sanitized,
values passed through unchanged). -/
def dpointLabels (dp : DataPoint) : List (Str × Str) :=
  dp.Tags.foldl (fun m p => insertTag (makeValidPromName p.1) p.2 m) []

/-- The metric `dpointsToMetrics` builds for one data point:
`MustNewConstMetric(NewDesc(makeValidPromName(dpoint.Metric), "help",
nil, labels), GaugeValue, v)` where `v` is the float value of the data
point (the Go type switch on `dpoint.Value` always hits the `float64`
case, since `parseTcollectorValue` stores a float). -/
def dpointToMetric (dp : DataPoint) : Metric :=
  { name := makeValidPromName dp.Metric
    help := "help".toList
    labels := dpointLabels dp
    kind := .gaugeValue
    value := dp.Value }

/-- Embedding of `dpointsToMetrics` (src/main.go): one gauge metric per
data point; the returned error is always nil. -/
def dpointsToMetrics (dps : List DataPoint) : List Metric × Option TransErr :=
  (dps.map dpointToMetric, none)

/-- The scanning loop of `translateOpenTsdb`: skip blank lines, parse the
rest with `parseTcollectorValue`, aborting on the first failing line. -/
def parseNonblankLines : List Str → Except TransErr (List DataPoint)
  | [] => .ok []
  | l :: ls =>
    if isBlank l then parseNonblankLines ls
    else
      match parseTcollectorValue l with
      | .error e => .error e
      | .ok dp =>
        match parseNonblankLines ls with
        | .error e => .error e
        | .ok dps => .ok (dp :: dps)

/-- Embedding of `translateOpenTsdb` (src/main.go): scan the input line
by line, skip blank lines, parse each remaining line; on any parse error
return the empty metric slice together with that error, otherwise
translate the collected data points. -/
def translateOpenTsdb (input : Str) : List Metric × Option TransErr :=
  match parseNonblankLines (scanLines input) with
  | .error e => ([], some e)
  | .ok dps => dpointsToMetrics dps

/-- The non-blank lines of the input, as scanned by the translation
loop. -/
def nonblankLines (input : Str) : List Str :=
  (scanLines input).filter (fun l => !isBlank l)

/-- The error value of a fired context: `context.Canceled` or
`context.DeadlineExceeded`. -/
inductive CtxErr where
  | canceled
  | deadlineExceeded
deriving DecidableEq

/-- The behaviour of the operating system and child process during one
`runCommand` invocation: whether pipe creation and `cmd.Start` succeed,
whether `ctx.Done()` fires before both stream copies complete
(`ctxdone` in the code), the stdout bytes captured by then (possibly a
prefix of the full output), the full stdout and stderr contents, and
whether `cmd.Wait` reports a nonzero exit or signal termination. -/
structure ProcEnv where
  stdoutPipeOk : Bool
  stderrPipeOk : Bool
  startOk : Bool
  ctxDoneFirst : Bool
  ctxErr : CtxErr
  capturedStdout : Str
  fullStdout : Str
  stderrBytes : Str
  waitFails : Bool
deriving DecidableEq

/-- The errors `runCommand` can return, mirroring its `fmt.Errorf`
cases, the propagated context error, and the error of `cmd.Wait`. -/
inductive RunError where
  | stdoutPipeFail
  | stderrPipeFail
  | startFail
  | ctx (e : CtxErr)
  | execFailed
  | stderrOutput (s : Str)
deriving DecidableEq

/-- Embedding of `runCommand` (the process-execution primitive): after
the pipes are created and the child started, the caller waits for both
stream copies or the context, then runs `err = cmd.Wait(); if ctxdone {
err = ctx.Err() }; if err == nil && stderr.Len() != 0 { err = ... };
return stdout.String(), err`. -/
def runCommand (env : ProcEnv) : Str × Option RunError :=
  if !env.stdoutPipeOk then ([], some .stdoutPipeFail)
  else if !env.stderrPipeOk then ([], some .stderrPipeFail)
  else if !env.startOk then ([], some .startFail)
  else
    let stdout := if env.ctxDoneFirst then env.capturedStdout else env.fullStdout
    let waitErr : Option RunError :=
      if env.waitFails then some .execFailed else none
    let err1 : Option RunError :=
      if env.ctxDoneFirst then some (.ctx env.ctxErr) else waitErr
    let err2 : Option RunError :=
      match err1 with
      | none =>
        if !env.stderrBytes.isEmpty then some (.stderrOutput env.stderrBytes)
        else none
      | some e => some e
    (stdout, err2)

/-- Whether a `runCommand` error is an execution failure in the sense of
the spec: nonzero exit or signal, or unexpected stderr output. -/
def isExecutionFailure : Option RunError → Prop
  | some .execFailed => True
  | some (.stderrOutput _) => True
  | _ => False

/-- Dispatcher configuration: the `scriptWorkers` flag (max concurrent
requests per script). -/
structure DConfig where
  scriptWorkers : Int

/-- Dispatcher state: `numChildren` is the concurrency table
(`map[string]int`, absent keys read as 0); `running` counts the live
execution tasks per script (each admitted request spawns exactly one,
which decrements once on completion); `concExceeds` is the
`script_concurrency_exceeds_total` counter. -/
structure DState where
  numChildren : Str → Int
  running : Str → Nat
  concExceeds : Str → Nat

/-- The state of a fresh `ScriptHandler`: empty concurrency table, no
running tasks, zeroed counters. -/
def initState : DState :=
  { numChildren := fun _ => 0, running := fun _ => 0, concExceeds := fun _ => 0 }

/-- Outcome of the admission portion of the `Start` loop body. -/
inductive StartOutcome where
  | rejected (curChildCount : Int)
  | launched
deriving DecidableEq

/-- Embedding of the admission portion of `ScriptHandler.Start` for one
received request: read the current in-flight count under the mutex; if
it is at or above `scriptWorkers`, bump the overflow counter and send
the rejection result without further state change; otherwise increment
the count under the mutex and launch the execution goroutine.  The
final component records whether a runner task was launched. -/
def startReqStep (cfg : DConfig) (s : DState) (sc : Str) :
    DState × StartOutcome × Bool :=
  let cur := s.numChildren sc
  if cur ≥ cfg.scriptWorkers then
    ({ s with concExceeds := Function.update s.concExceeds sc (s.concExceeds sc + 1) },
     .rejected cur, false)
  else
    ({ s with numChildren := Function.update s.numChildren sc (s.numChildren sc + 1),
              running := Function.update s.running sc (s.running sc + 1) },
     .launched, true)

/-- A value sent on a request's result channel (`runresult`): either the
rejection error built by the admission loop, or the output and error of
`runCommand` delivered by the execution goroutine. -/
inductive DeliveredResult where
  | admissionRejected (script : Str) (count : Int)
  | execResult (output : Str) (err : Option RunError)
deriving DecidableEq

/-- Embedding of the complete handling of one request by
`ScriptHandler.Start`: the admission step, and — when admitted — the
execution goroutine run to completion (invoke `runCommand`, decrement
the count under the mutex, send the result).  The goroutine body is
inlined sequentially; its interleaving with other requests only affects
counts of other scripts and is covered by the step relation below.  The
middle component lists every write to the request's result channel, in
order; the last component records whether a runner task was started. -/
def handleRequest (cfg : DConfig) (s : DState) (sc : Str) (env : ProcEnv) :
    DState × List DeliveredResult × Bool :=
  match startReqStep cfg s sc with
  | (s1, .rejected c, _) => (s1, [.admissionRejected sc c], false)
  | (s1, .launched, _) =>
    let r := runCommand env
    let s2 : DState :=
      { s1 with numChildren := Function.update s1.numChildren sc (s1.numChildren sc - 1),
                running := Function.update s1.running sc (s1.running sc - 1) }
    (s2, [.execResult r.1 r.2], true)

/-- The atomic steps of the dispatcher, one per mutex-protected section
of `ScriptHandler.Start`: rejecting a request (count at the limit),
admitting one (count below the limit, one new execution task), and an
execution task finishing (decrement).  A finish step requires a live
task for that script, since the decrement is the tail of a goroutine
spawned by a matching admission. -/
inductive DStep (cfg : DConfig) : DState → DState → Prop where
  | reject (s : DState) (sc : Str) :
      s.numChildren sc ≥ cfg.scriptWorkers →
      DStep cfg s
        { s with concExceeds := Function.update s.concExceeds sc (s.concExceeds sc + 1) }
  | admitted (s : DState) (sc : Str) :
      s.numChildren sc < cfg.scriptWorkers →
      DStep cfg s
        { s with numChildren := Function.update s.numChildren sc (s.numChildren sc + 1),
                 running := Function.update s.running sc (s.running sc + 1) }
  | finish (s : DState) (sc : Str) :
      s.running sc > 0 →
      DStep cfg s
        { s with numChildren := Function.update s.numChildren sc (s.numChildren sc - 1),
                 running := Function.update s.running sc (s.running sc - 1) }

/-- States reachable by the dispatcher from a fresh handler. -/
inductive Reachable (cfg : DConfig) : DState → Prop where
  | init : Reachable cfg initState
  | step {s t : DState} : Reachable cfg s → DStep cfg s t → Reachable cfg t

/-- A label name/value pair (`dto.LabelPair`). -/
structure LabelPair where
  name : Str
  value : Str
deriving DecidableEq

/-- A parsed metric within a family; only the label list matters to the
regatherer, which sorts it in place. -/
structure DtoMetric where
  label : List LabelPair
deriving DecidableEq

/-- A metric family (`dto.MetricFamily`) with its name and metrics. -/
structure MetricFamily where
  name : Str
  metric : List DtoMetric
deriving DecidableEq

/-- The `regatherer` type: the map from family name to family produced
by `expfmt.TextParser`, modelled as an association list whose order
stands in for Go's unspecified map iteration order. -/
def Regatherer := List (Str × MetricFamily)

/-- The order used by `prometheus.LabelPairSorter`: compare label pairs
by name (Go byte-wise string comparison). -/
def lpLe (a b : LabelPair) : Prop := a.name ≤ b.name

instance : DecidableRel lpLe :=
  fun a b => inferInstanceAs (Decidable (a.name ≤ b.name))

instance : IsTotal LabelPair lpLe := ⟨fun a b => le_total a.name b.name⟩

instance : IsTrans LabelPair lpLe := ⟨fun _ _ _ h1 h2 => le_trans h1 h2⟩

/-- The per-family body of `regatherer.Gather`: sort each metric's label
pairs with `sort.Sort(prometheus.LabelPairSorter(...))`. -/
def sortFamilyLabels (fam : MetricFamily) : MetricFamily :=
  { fam with
    metric := List.map
      (fun m => { m with label := List.insertionSort lpLe m.label })
      fam.metric }

/-- Embedding of `regatherer.Gather` (src/main.go): iterate over the
map, sort every metric's labels, collect the families; the error is
always nil. -/
def gather (r : Regatherer) : List MetricFamily × Option Unit :=
  (r.map (fun p => sortFamilyLabels p.2), none)

instance : DecidableEq (Except TransErr DataPoint) := fun a b =>
  match a, b with
  | .ok x, .ok y => decidable_of_iff (x = y) (by simp)
  | .error e, .error f => decidable_of_iff (e = f) (by simp)
  | .ok _, .error _ => isFalse (by simp)
  | .error _, .ok _ => isFalse (by simp)

/-- The timestamp-free part of a data point: everything
`dpointsToMetrics` reads. -/
def eraseTs (dp : DataPoint) : Str × GoFloat × List (Str × Str) :=
  (dp.Metric, dp.Value, dp.Tags)

/-- The timestamp-free content of a line-parse result. -/
def okErase : Except TransErr DataPoint →
    Option (Str × GoFloat × List (Str × Str))
  | .ok dp => some (eraseTs dp)
  | .error _ => none

/-- The timestamp-free content of a whole-input parse result. -/
def okListErase : Except TransErr (List DataPoint) →
    Option (List (Str × GoFloat × List (Str × Str)))
  | .ok dps => some (dps.map eraseTs)
  | .error _ => none

/-- Two lines agree except possibly in their timestamp field: same
number of whitespace-separated fields, equal fields at every position
other than 1, and (when a field 1 exists) both timestamp fields parse
as int64. -/
def sameFieldsModTs (l1 l2 : Str) : Prop :=
  (fields l1).length = (fields l2).length ∧
  (∀ j, j < (fields l1).length → j ≠ 1 → (fields l1)[j]? = (fields l2)[j]?) ∧
  (1 < (fields l1).length →
    (parseInt64 ((fields l1).getD 1 [])).isSome = true ∧
    (parseInt64 ((fields l2).getD 1 [])).isSome = true)

/-- Example configuration: one worker per script, as the flag default. -/
def cfgEx : DConfig := { scriptWorkers := 1 }

/-- Example dispatcher state with one execution of script `a` in
flight. -/
def stEx : DState :=
  { numChildren := fun _ => 1, running := fun _ => 1, concExceeds := fun _ => 0 }

/-- The dispatcher state after admitting one request for script `a` from
the initial state. -/
def admitEx : DState :=
  { initState with
    numChildren := Function.update initState.numChildren "a".toList
      (initState.numChildren "a".toList + 1)
    running := Function.update initState.running "a".toList
      (initState.running "a".toList + 1) }

/-- Example process behaviour: clean run, exit 0, stdout `hi`, no
stderr, no cancellation. -/
def procEnvEx : ProcEnv :=
  { stdoutPipeOk := true, stderrPipeOk := true, startOk := true,
    ctxDoneFirst := false, ctxErr := .canceled, capturedStdout := [],
    fullStdout := "hi".toList, stderrBytes := [], waitFails := false }

/-- The opentsdb-format input of the repository's translation test. -/
def inputEx : Str := "a.a 1000 9 l1=v1\na.b 1001 99 l2=v2 l3=v3".toList

/-- The first metric expected from `inputEx`. -/
def metricAEx : Metric :=
  { name := "a_a".toList, help := "help".toList,
    labels := [("l1".toList, "v1".toList)],
    kind := .gaugeValue, value := .finite 9 0 }

/-- The second metric expected from `inputEx`. -/
def metricBEx : Metric :=
  { name := "a_b".toList, help := "help".toList,
    labels := [("l2".toList, "v2".toList), ("l3".toList, "v3".toList)],
    kind := .gaugeValue, value := .finite 99 0 }

/-- An input whose second line is missing its value field. -/
def badInputEx : Str := "a.a 1000 9 l1=v1\na.b 1001".toList

/-- Timestamp-variation example, first variant. -/
def tsInputEx1 : Str := "a.a 1000 9 l1=v1".toList

/-- Timestamp-variation example, second variant: same line with a
different timestamp. -/
def tsInputEx2 : Str := "a.a 2000 9 l1=v1".toList

/-- A line whose tag value contains characters outside `[A-Za-z0-9_]`. -/
def tagLineEx : Str := "m 1 2 a.b=c:d".toList

/-- The data point parsed from `tagLineEx`. -/
def tagDpEx : DataPoint :=
  { Metric := "m".toList, Timestamp := 1, Value := .finite 2 0,
    Tags := [("a.b".toList, "c:d".toList)] }

/-- C1: for every `runCommand` invocation whose pipe setup and start
succeed, the result classification follows the claimed precedence: a
fired cancellation/deadline token yields the context's error together
with the stdout captured so far; otherwise a nonzero/signal exit is an
execution failure; otherwise a zero exit with non-empty stderr is an
execution failure; otherwise the result is the full stdout with a nil
error. -/
theorem runCommand_classification (env : ProcEnv)
    (h1 : env.stdoutPipeOk = true) (h2 : env.stderrPipeOk = true)
    (h3 : env.startOk = true) :
    (env.ctxDoneFirst = true →
      runCommand env = (env.capturedStdout, some (.ctx env.ctxErr))) ∧
    (env.ctxDoneFirst = false → env.waitFails = true →
      isExecutionFailure (runCommand env).2) ∧
    (env.ctxDoneFirst = false → env.waitFails = false →
      env.stderrBytes ≠ [] → isExecutionFailure (runCommand env).2) ∧
    (env.ctxDoneFirst = false → env.waitFails = false →
      env.stderrBytes = [] → runCommand env = (env.fullStdout, none)) := by
  refine ⟨fun hc => ?_, fun hc hw => ?_, fun hc hw hs => ?_, fun hc hw hs => ?_⟩
  · simp [runCommand, h1, h2, h3, hc]
  · simp [runCommand, isExecutionFailure, h1, h2, h3, hc, hw]
  · simp [runCommand, isExecutionFailure, h1, h2, h3, hc, hw,
      List.isEmpty_iff, hs]
  · simp [runCommand, h1, h2, h3, hc, hw, hs]

/-- Witness for C1: a clean run (exit 0, empty stderr, no cancellation)
returns its full stdout and a nil error. -/
theorem runCommand_classification_witness :
    runCommand procEnvEx = ("hi".toList, none) :=
  (runCommand_classification procEnvEx rfl rfl rfl).2.2.2 rfl rfl rfl

/-- C2 (counter-evaluation): `makeValidPromName` keeps a digit in the
first position.  The closure counter `i` is incremented before the
`i > 0` test, so the test is vacuously true and the claimed
replacement of a leading digit never happens; the result `9ab` is not
a valid Prometheus metric name, contradicting the function's stated
purpose. -/
theorem makeValidPromName_keeps_leading_digit :
    makeValidPromName "9ab".toList = "9ab".toList := by decide

/-- C3: when the in-flight count for a script is at or above the
configured maximum, the admission loop rejects the request: the
concurrency table is unchanged, no runner task is launched, the
outcome is a rejection carrying the current count, and the overflow
counter for that script is incremented. -/
theorem start_rejects_at_limit (cfg : DConfig) (s : DState) (sc : Str)
    (h : s.numChildren sc ≥ cfg.scriptWorkers) :
    (startReqStep cfg s sc).1.numChildren = s.numChildren ∧
    (startReqStep cfg s sc).1.running = s.running ∧
    (startReqStep cfg s sc).1.concExceeds
      = Function.update s.concExceeds sc (s.concExceeds sc + 1) ∧
    (startReqStep cfg s sc).2.1 = .rejected (s.numChildren sc) ∧
    (startReqStep cfg s sc).2.2 = false := by
  simp [startReqStep, h]

/-- Witness for C3: with one worker and one execution of `a` already in
flight, a request for `a` is rejected without touching the table. -/
theorem start_rejects_at_limit_witness :
    (startReqStep cfgEx stEx "a".toList).1.numChildren = stEx.numChildren ∧
    (startReqStep cfgEx stEx "a".toList).2.1 = .rejected 1 ∧
    (startReqStep cfgEx stEx "a".toList).2.2 = false := by
  have h := start_rejects_at_limit cfgEx stEx "a".toList
    (by simp [stEx, cfgEx])
  exact ⟨h.1, h.2.2.2.1, h.2.2.2.2⟩

/-- Invariant of the dispatcher: the concurrency-table entry of every
script equals the number of live execution tasks for it, and (for a
non-negative configured maximum) never exceeds the maximum. -/
theorem reachable_children_eq_running (cfg : DConfig) (st : DState)
    (h : Reachable cfg st) : ∀ sc,
    st.numChildren sc = (st.running sc : Int) ∧
    (0 ≤ cfg.scriptWorkers → st.numChildren sc ≤ cfg.scriptWorkers) := by
  induction h with
  | init => intro sc; simp [initState]
  | step _ hs ih =>
    cases hs with
    | reject sc' hge =>
      intro sc
      simpa using ih sc
    | admitted sc' hlt =>
      intro sc
      have h1 := ih sc
      by_cases heq : sc = sc'
      · subst heq
        simp only [Function.update_apply, if_pos rfl]
        push_cast
        omega
      · simpa [Function.update_apply, heq] using h1
    | finish sc' hgt =>
      intro sc
      have h1 := ih sc
      by_cases heq : sc = sc'
      · subst heq
        simp only [Function.update_apply, if_pos rfl]
        push_cast
        omega
      · simpa [Function.update_apply, heq] using h1

/-- C4: in every reachable dispatcher state the concurrency-table entry
of every script is non-negative, and (for a non-negative configured
per-script maximum) never exceeds the maximum.  Each step of the
reachability relation is one mutex-protected section of the Go code,
so every table mutation happens under the single mutual-exclusion
boundary by construction. -/
theorem reachable_numChildren_bounds (cfg : DConfig) (st : DState)
    (h : Reachable cfg st) (sc : Str) :
    0 ≤ st.numChildren sc ∧
    (0 ≤ cfg.scriptWorkers → st.numChildren sc ≤ cfg.scriptWorkers) := by
  have hinv := reachable_children_eq_running cfg st h sc
  refine ⟨?_, hinv.2⟩
  rw [hinv.1]
  exact Int.natCast_nonneg _

/-- Witness for C4: the state reached by admitting one request for `a`
from the initial state satisfies the bounds. -/
theorem reachable_numChildren_bounds_witness :
    0 ≤ admitEx.numChildren "a".toList ∧
    (0 ≤ cfgEx.scriptWorkers →
      admitEx.numChildren "a".toList ≤ cfgEx.scriptWorkers) :=
  reachable_numChildren_bounds cfgEx admitEx
    (Reachable.step Reachable.init
      (DStep.admitted initState "a".toList (by norm_num [initState, cfgEx])))
    "a".toList

/-- C6: the dispatcher writes exactly one result to every request's
result slot: a request over the limit gets exactly one synchronous
rejection with no runner started, and an admitted request gets exactly
one execution result. -/
theorem handleRequest_exactly_one_result (cfg : DConfig) (s : DState)
    (sc : Str) (env : ProcEnv) :
    (handleRequest cfg s sc env).2.1.length = 1 ∧
    (s.numChildren sc ≥ cfg.scriptWorkers →
      (handleRequest cfg s sc env).2.1
        = [.admissionRejected sc (s.numChildren sc)] ∧
      (handleRequest cfg s sc env).2.2 = false) ∧
    (s.numChildren sc < cfg.scriptWorkers →
      (handleRequest cfg s sc env).2.1
        = [.execResult (runCommand env).1 (runCommand env).2] ∧
      (handleRequest cfg s sc env).2.2 = true) := by
  by_cases h : s.numChildren sc ≥ cfg.scriptWorkers
  · refine ⟨?_, fun _ => ⟨?_, ?_⟩, fun hlt => absurd hlt (not_lt.mpr h)⟩ <;>
      simp [handleRequest, startReqStep, h]
  · refine ⟨?_, fun hge => absurd hge h, fun _ => ⟨?_, ?_⟩⟩ <;>
      simp [handleRequest, startReqStep, h]

/-- Witness for C6: with one worker and one execution of `a` in flight,
a request for `a` yields exactly one result, a rejection, with no
runner started. -/
theorem handleRequest_exactly_one_result_witness :
    (handleRequest cfgEx stEx "a".toList procEnvEx).2.1.length = 1 ∧
    (handleRequest cfgEx stEx "a".toList procEnvEx).2.1
      = [.admissionRejected "a".toList 1] ∧
    (handleRequest cfgEx stEx "a".toList procEnvEx).2.2 = false := by
  have h := handleRequest_exactly_one_result cfgEx stEx "a".toList procEnvEx
  have hge : stEx.numChildren "a".toList ≥ cfgEx.scriptWorkers := by
    simp [stEx, cfgEx]
  exact ⟨h.1, (h.2.1 hge).1, (h.2.1 hge).2⟩

/-- C9: `Gather` on a canonical-format parse result returns a nil error
and every family of the input, each with its metrics' label pairs
sorted by label name (and unchanged as a multiset), so repeated
identical requests yield an order-stable label sequence within each
metric. -/
theorem gather_sorts_labels (r : Regatherer) :
    (gather r).2 = none ∧
    List.Forall₂ (fun p fam =>
      fam.name = p.2.name ∧
      List.Forall₂ (fun m0 m1 =>
        List.Perm m1.label m0.label ∧ List.Sorted lpLe m1.label)
        p.2.metric fam.metric)
      r (gather r).1 := by
  refine ⟨rfl, ?_⟩
  show List.Forall₂ _ r (r.map (fun p => sortFamilyLabels p.2))
  rw [List.forall₂_map_right_iff]
  rw [List.forall₂_same]
  intro p _
  refine ⟨rfl, ?_⟩
  show List.Forall₂ _ p.2.metric (List.map _ p.2.metric)
  rw [List.forall₂_map_right_iff]
  rw [List.forall₂_same]
  intro m _
  exact ⟨List.perm_insertionSort lpLe m.label,
    List.sorted_insertionSort lpLe m.label⟩

/-- If every non-blank line parses, the scanning loop succeeds with one
data point per non-blank line. -/
theorem pnl_ok_of_all_ok (ls : List Str)
    (h : ∀ l ∈ ls, isBlank l = false → ∃ dp, parseTcollectorValue l = .ok dp) :
    ∃ dps, parseNonblankLines ls = .ok dps ∧
      dps.length = (ls.filter (fun l => !isBlank l)).length := by
  induction ls with
  | nil => exact ⟨[], rfl, rfl⟩
  | cons l ls ih =>
    by_cases hb : isBlank l
    · obtain ⟨dps, hdps, hlen⟩ :=
        ih (fun x hx hbx => h x (List.mem_cons_of_mem _ hx) hbx)
      exact ⟨dps, by simp [parseNonblankLines, hb, hdps],
        by simp [List.filter_cons, hb, hlen]⟩
    · have hb' : isBlank l = false := by simpa using hb
      obtain ⟨dp, hdp⟩ := h l (List.mem_cons_self _ _) hb'
      obtain ⟨dps, hdps, hlen⟩ :=
        ih (fun x hx hbx => h x (List.mem_cons_of_mem _ hx) hbx)
      refine ⟨dp :: dps, ?_, ?_⟩
      · simp [parseNonblankLines, hb', hdp, hdps]
      · simp [List.filter_cons, hb', hlen]

/-- If some non-blank line fails to parse, the scanning loop fails with
the parse error of some failing non-blank line. -/
theorem pnl_error_of_mem (ls : List Str) (l : Str) (e : TransErr)
    (hl : l ∈ ls) (hb : isBlank l = false)
    (he : parseTcollectorValue l = .error e) :
    ∃ l' e', l' ∈ ls ∧ isBlank l' = false ∧
      parseTcollectorValue l' = .error e' ∧
      parseNonblankLines ls = .error e' := by
  induction ls with
  | nil => cases hl
  | cons a ls ih =>
    by_cases hba : isBlank a
    · have hl' : l ∈ ls := by
        rcases List.mem_cons.mp hl with h1 | h1
        · subst h1; exact absurd hba (by simp [hb])
        · exact h1
      obtain ⟨l', e', m, b, p, r⟩ := ih hl'
      exact ⟨l', e', List.mem_cons_of_mem _ m, b, p,
        by simp [parseNonblankLines, hba, r]⟩
    · have hba' : isBlank a = false := by simpa using hba
      cases hpa : parseTcollectorValue a with
      | error ea =>
        exact ⟨a, ea, List.mem_cons_self _ _, hba', hpa,
          by simp [parseNonblankLines, hba', hpa]⟩
      | ok dp =>
        have hl' : l ∈ ls := by
          rcases List.mem_cons.mp hl with h1 | h1
          · subst h1; rw [hpa] at he; cases he
          · exact h1
        obtain ⟨l', e', m, b, p, r⟩ := ih hl'
        exact ⟨l', e', List.mem_cons_of_mem _ m, b, p,
          by simp [parseNonblankLines, hba', hpa, r]⟩

/-- C5: the translation is atomic.  If any non-blank line fails to
parse, the whole call returns the empty metric slice together with the
parse error of a failing line; if every non-blank line parses, it
returns a nil error and one gauge-kind metric per non-blank line. -/
theorem translateOpenTsdb_atomic (input : Str) :
    ((∃ l ∈ nonblankLines input, ∃ e, parseTcollectorValue l = .error e) →
      (translateOpenTsdb input).1 = [] ∧
      ∃ l ∈ nonblankLines input, ∃ e,
        parseTcollectorValue l = .error e ∧
        (translateOpenTsdb input).2 = some e) ∧
    ((∀ l ∈ nonblankLines input, ∃ dp, parseTcollectorValue l = .ok dp) →
      (translateOpenTsdb input).2 = none ∧
      (translateOpenTsdb input).1.length = (nonblankLines input).length ∧
      ∀ m ∈ (translateOpenTsdb input).1, m.kind = .gaugeValue) := by
  constructor
  · rintro ⟨l, hm, e, he⟩
    have hm' : l ∈ scanLines input ∧ (!isBlank l) = true := by
      simpa [nonblankLines, List.mem_filter] using hm
    obtain ⟨l', e', m, b, p, r⟩ :=
      pnl_error_of_mem (scanLines input) l e hm'.1 (by simpa using hm'.2) he
    refine ⟨by simp [translateOpenTsdb, r], l', ?_, e', p,
      by simp [translateOpenTsdb, r]⟩
    simp [nonblankLines, List.mem_filter, m, b]
  · intro h
    have h' : ∀ l ∈ scanLines input, isBlank l = false →
        ∃ dp, parseTcollectorValue l = .ok dp := by
      intro l hm hb
      exact h l (by simp [nonblankLines, List.mem_filter, hm, hb])
    obtain ⟨dps, hdps, hlen⟩ := pnl_ok_of_all_ok (scanLines input) h'
    refine ⟨by simp [translateOpenTsdb, hdps, dpointsToMetrics], ?_, ?_⟩
    · simp [translateOpenTsdb, hdps, dpointsToMetrics, nonblankLines, hlen]
    · intro m hm
      have hm2 : m ∈ dps.map dpointToMetric := by
        simpa [translateOpenTsdb, hdps, dpointsToMetrics] using hm
      obtain ⟨dp, _, hdp⟩ := List.mem_map.mp hm2
      rw [← hdp]
      rfl

/-- Witness for C5: an input whose second line is missing its value
field translates to no metrics and the bad-line error. -/
theorem translateOpenTsdb_atomic_witness :
    (translateOpenTsdb badInputEx).1 = [] ∧
    ∃ l ∈ nonblankLines badInputEx, ∃ e,
      parseTcollectorValue l = .error e ∧
      (translateOpenTsdb badInputEx).2 = some e :=
  (translateOpenTsdb_atomic badInputEx).1
    ⟨"a.b 1001".toList, by decide, .badLine "a.b 1001".toList, by decide⟩

/-- C7: the repository's test vector translates to exactly the two
expected gauge metrics `a_a` (value 9, label l1=v1) and `a_b` (value
99, labels l2=v2, l3=v3); and any non-blank line with fewer than three
whitespace-separated fields fails the whole translation with no
metrics returned. -/
theorem translateOpenTsdb_test_vector :
    translateOpenTsdb inputEx = ([metricAEx, metricBEx], none) ∧
    ∀ input l, l ∈ nonblankLines input → (fields l).length < 3 →
      (translateOpenTsdb input).1 = [] ∧
      (translateOpenTsdb input).2.isSome = true := by
  constructor
  · decide
  · intro input l hm hlen
    have he : parseTcollectorValue l = .error (.badLine l) := by
      simp [parseTcollectorValue, hlen]
    have hm' : l ∈ scanLines input ∧ (!isBlank l) = true := by
      simpa [nonblankLines, List.mem_filter] using hm
    obtain ⟨l', e', m, b, p, r⟩ :=
      pnl_error_of_mem (scanLines input) l (.badLine l) hm'.1
        (by simpa using hm'.2) he
    exact ⟨by simp [translateOpenTsdb, r], by simp [translateOpenTsdb, r]⟩

/-- Witness for C7: the concrete input with a missing value field. -/
theorem translateOpenTsdb_test_vector_witness :
    (translateOpenTsdb badInputEx).1 = [] ∧
    (translateOpenTsdb badInputEx).2.isSome = true :=
  translateOpenTsdb_test_vector.2 badInputEx "a.b 1001".toList
    (by decide) (by decide)

/-- Lines that agree except in the timestamp field have line-parse
results with the same timestamp-free content: both fail, or both
succeed with equal metric name, value and tags. -/
theorem okErase_congr (l1 l2 : Str) (h : sameFieldsModTs l1 l2) :
    okErase (parseTcollectorValue l1) = okErase (parseTcollectorValue l2) := by
  obtain ⟨hlen, hag, hts⟩ := h
  by_cases h3 : (fields l1).length < 3
  · have h3' : (fields l2).length < 3 := hlen ▸ h3
    simp [parseTcollectorValue, h3, h3', okErase]
  · have h3' : ¬ (fields l2).length < 3 := by omega
    obtain ⟨hts1, hts2⟩ := hts (by omega)
    obtain ⟨t1, ht1⟩ := Option.isSome_iff_exists.mp hts1
    obtain ⟨t2, ht2⟩ := Option.isSome_iff_exists.mp hts2
    have h0 : (fields l1).getD 0 [] = (fields l2).getD 0 [] := by
      rw [List.getD_eq_getElem?_getD, List.getD_eq_getElem?_getD,
        hag 0 (by omega) (by decide)]
    have h2eq : (fields l1).getD 2 [] = (fields l2).getD 2 [] := by
      rw [List.getD_eq_getElem?_getD, List.getD_eq_getElem?_getD,
        hag 2 (by omega) (by decide)]
    have hdrop : (fields l1).drop 3 = (fields l2).drop 3 := by
      apply List.ext_getElem?
      intro n
      rw [List.getElem?_drop, List.getElem?_drop]
      by_cases hn : 3 + n < (fields l1).length
      · exact hag (3 + n) hn (by omega)
      · rw [List.getElem?_eq_none (by omega), List.getElem?_eq_none (by omega)]
    simp only [parseTcollectorValue, if_neg h3, if_neg h3', ht1, ht2, h0,
      h2eq, hdrop]
    cases hv : parseFloat ((fields l2).getD 2 []) with
    | none => simp [okErase]
    | some v =>
      by_cases hval : ValidTSDBString ((fields l2).getD 0 [])
      · cases hm : mergeTags ((fields l2).getD 0 []) [] ((fields l2).drop 3) with
        | error e =>
          simp only [List.getD_eq_getElem?_getD] at hval hm
          simp [hval, hm, okErase]
        | ok tags =>
          simp only [List.getD_eq_getElem?_getD] at hval hm
          simp [hval, hm, okErase, eraseTs]
      · have hval' : ValidTSDBString ((fields l2).getD 0 []) = false := by
          simpa using hval
        simp only [List.getD_eq_getElem?_getD] at hval'
        simp [hval', okErase]

/-- Blank-line skipping commutes with pre-filtering the blank lines. -/
theorem pnl_eq_filter (ls : List Str) :
    parseNonblankLines ls
      = parseNonblankLines (ls.filter (fun l => !isBlank l)) := by
  induction ls with
  | nil => rfl
  | cons l ls ih =>
    by_cases hb : isBlank l
    · simp [parseNonblankLines, hb, List.filter_cons, ih]
    · have hb' : isBlank l = false := by simpa using hb
      simp [parseNonblankLines, hb', List.filter_cons, ih]

/-- Whole-input parses of field-wise timestamp-variant non-blank line
lists have the same timestamp-free content. -/
theorem pnl_okListErase_congr (ls1 ls2 : List Str)
    (h : List.Forall₂ sameFieldsModTs ls1 ls2)
    (hb1 : ∀ l ∈ ls1, isBlank l = false)
    (hb2 : ∀ l ∈ ls2, isBlank l = false) :
    okListErase (parseNonblankLines ls1)
      = okListErase (parseNonblankLines ls2) := by
  induction ls1 generalizing ls2 with
  | nil => cases h; rfl
  | cons a t1 ih =>
    cases h with
    | cons h1 h2 =>
      rename_i b t2
      have ha : isBlank a = false := hb1 a (List.mem_cons_self _ _)
      have hbb : isBlank b = false := hb2 b (List.mem_cons_self _ _)
      have hOk := okErase_congr a b h1
      cases hpa : parseTcollectorValue a with
      | error ea =>
        cases hpb : parseTcollectorValue b with
        | error eb =>
          simp [parseNonblankLines, ha, hbb, hpa, hpb, okListErase]
        | ok dpb => rw [hpa, hpb] at hOk; simp [okErase] at hOk
      | ok dpa =>
        cases hpb : parseTcollectorValue b with
        | error eb => rw [hpa, hpb] at hOk; simp [okErase] at hOk
        | ok dpb =>
          have hET : eraseTs dpa = eraseTs dpb := by
            rw [hpa, hpb] at hOk
            simpa [okErase] using hOk
          have ihh := ih t2 h2
            (fun x hx => hb1 x (List.mem_cons_of_mem _ hx))
            (fun x hx => hb2 x (List.mem_cons_of_mem _ hx))
          cases hq1 : parseNonblankLines t1 with
          | error e1 =>
            cases hq2 : parseNonblankLines t2 with
            | error e2 =>
              simp [parseNonblankLines, ha, hbb, hpa, hpb, hq1, hq2,
                okListErase]
            | ok d2 => rw [hq1, hq2] at ihh; simp [okListErase] at ihh
          | ok d1 =>
            cases hq2 : parseNonblankLines t2 with
            | error e2 => rw [hq1, hq2] at ihh; simp [okListErase] at ihh
            | ok d2 =>
              have hmap : d1.map eraseTs = d2.map eraseTs := by
                rw [hq1, hq2] at ihh
                simpa [okListErase] using ihh
              simp [parseNonblankLines, ha, hbb, hpa, hpb, hq1, hq2,
                okListErase, hET, hmap]

/-- Data-point lists with equal timestamp-free content produce equal
metric lists. -/
theorem map_eraseTs_to_metric (dps1 dps2 : List DataPoint)
    (h : dps1.map eraseTs = dps2.map eraseTs) :
    dps1.map dpointToMetric = dps2.map dpointToMetric := by
  induction dps1 generalizing dps2 with
  | nil =>
    cases dps2 with
    | nil => rfl
    | cons b t2 => simp at h
  | cons a t1 ih =>
    cases dps2 with
    | nil => simp at h
    | cons b t2 =>
      simp only [List.map_cons, List.cons.injEq] at h ⊢
      obtain ⟨h1, h2⟩ := h
      have hm : a.Metric = b.Metric := congrArg (fun p => p.1) h1
      have hv : a.Value = b.Value := congrArg (fun p => p.2.1) h1
      have ht : a.Tags = b.Tags := congrArg (fun p => p.2.2) h1
      exact ⟨by simp [dpointToMetric, dpointLabels, hm, hv, ht], ih t2 h2⟩

/-- C8: the timestamp field does not influence the translation output.
Inputs whose non-blank lines agree field-wise except in the timestamp
field (both timestamps parsing as integers) translate to identical
metric lists; no emitted metric carries a timestamp (the `Metric`
structure built by the code has no timestamp field at all). -/
theorem translate_ignores_timestamps (input1 input2 : Str)
    (h : List.Forall₂ sameFieldsModTs (nonblankLines input1)
      (nonblankLines input2)) :
    (translateOpenTsdb input1).1 = (translateOpenTsdb input2).1 := by
  have hb1 : ∀ l ∈ nonblankLines input1, isBlank l = false := by
    intro l hm
    have := (List.mem_filter.mp
      (show l ∈ List.filter _ (scanLines input1) from hm)).2
    simpa using this
  have hb2 : ∀ l ∈ nonblankLines input2, isBlank l = false := by
    intro l hm
    have := (List.mem_filter.mp
      (show l ∈ List.filter _ (scanLines input2) from hm)).2
    simpa using this
  have e1 : parseNonblankLines (scanLines input1)
      = parseNonblankLines (nonblankLines input1) := pnl_eq_filter _
  have e2 : parseNonblankLines (scanLines input2)
      = parseNonblankLines (nonblankLines input2) := pnl_eq_filter _
  have hcong : okListErase (parseNonblankLines (scanLines input1))
      = okListErase (parseNonblankLines (scanLines input2)) := by
    rw [e1, e2]
    exact pnl_okListErase_congr _ _ h hb1 hb2
  cases hp1 : parseNonblankLines (scanLines input1) with
  | error ea =>
    cases hp2 : parseNonblankLines (scanLines input2) with
    | error eb => simp [translateOpenTsdb, hp1, hp2]
    | ok d2 => rw [hp1, hp2] at hcong; simp [okListErase] at hcong
  | ok d1 =>
    cases hp2 : parseNonblankLines (scanLines input2) with
    | error eb => rw [hp1, hp2] at hcong; simp [okListErase] at hcong
    | ok d2 =>
      rw [hp1, hp2] at hcong
      have hmap : d1.map eraseTs = d2.map eraseTs := by
        simpa [okListErase] using hcong
      have := map_eraseTs_to_metric d1 d2 hmap
      simp [translateOpenTsdb, hp1, hp2, dpointsToMetrics, this]

/-- Witness for C8: the same line with timestamps 1000 and 2000
translates to the same metrics. -/
theorem translate_ignores_timestamps_witness :
    (translateOpenTsdb tsInputEx1).1 = (translateOpenTsdb tsInputEx2).1 :=
  translate_ignores_timestamps tsInputEx1 tsInputEx2
    (by
      have he1 : nonblankLines tsInputEx1 = [tsInputEx1] := by decide
      have he2 : nonblankLines tsInputEx2 = [tsInputEx2] := by decide
      rw [he1, he2]
      exact List.Forall₂.cons ⟨by decide, by decide, by decide⟩
        List.Forall₂.nil)

/-- Members of a tag map after an insertion are the inserted pair or a
previous member. -/
theorem insertTag_mem (k w n v : Str) (m : List (Str × Str))
    (h : (n, v) ∈ insertTag k w m) : (n = k ∧ v = w) ∨ (n, v) ∈ m := by
  induction m with
  | nil =>
    simp [insertTag] at h
    exact Or.inl h
  | cons p rest ih =>
    simp only [insertTag] at h
    by_cases h1 : k = p.1
    · rw [if_pos h1] at h
      rcases List.mem_cons.mp h with h2 | h2
      · simp at h2
        exact Or.inl h2
      · exact Or.inr (List.mem_cons_of_mem _ h2)
    · rw [if_neg h1] at h
      by_cases h2 : k ≤ p.1
      · rw [if_pos h2] at h
        rcases List.mem_cons.mp h with h3 | h3
        · simp at h3
          exact Or.inl h3
        · exact Or.inr h3
      · rw [if_neg h2] at h
        rcases List.mem_cons.mp h with h3 | h3
        · exact Or.inr (List.mem_cons.mpr (Or.inl h3))
        · rcases ih h3 with h4 | h4
          · exact Or.inl h4
          · exact Or.inr (List.mem_cons_of_mem _ h4)

/-- Members of a map built by folding key-transformed insertions:
every member's value is some source value, its key the transform of the
matching source key. -/
theorem foldl_insertTag_mem (f : Str → Str) (tags : List (Str × Str))
    (acc : List (Str × Str)) (n v : Str)
    (h : (n, v) ∈ tags.foldl (fun m p => insertTag (f p.1) p.2 m) acc) :
    (∃ k, (k, v) ∈ tags ∧ n = f k) ∨ (n, v) ∈ acc := by
  induction tags generalizing acc with
  | nil => exact Or.inr h
  | cons p rest ih =>
    simp only [List.foldl_cons] at h
    rcases ih (insertTag (f p.1) p.2 acc) h with h1 | h1
    · obtain ⟨k, hk, hn⟩ := h1
      exact Or.inl ⟨k, List.mem_cons_of_mem _ hk, hn⟩
    · rcases insertTag_mem (f p.1) p.2 n v acc h1 with h2 | h2
      · refine Or.inl ⟨p.1, ?_, h2.1⟩
        rw [h2.2]
        exact List.mem_cons.mpr (Or.inl rfl)
      · exact Or.inr h2

/-- Every label of the metric built for a data point is a tag value,
verbatim, under the sanitized tag key. -/
theorem dpointLabels_mem (dp : DataPoint) (n v : Str)
    (h : (n, v) ∈ dpointLabels dp) :
    ∃ k, (k, v) ∈ dp.Tags ∧ n = makeValidPromName k := by
  rcases foldl_insertTag_mem makeValidPromName dp.Tags [] n v h with h1 | h1
  · exact h1
  · cases h1

/-- Every member of a successfully merged tag set comes from the
accumulator or from a token that parsed to exactly that pair. -/
theorem mergeTags_mem (metric : Str) (toks : List Str)
    (acc tags : List (Str × Str)) (n v : Str)
    (hok : mergeTags metric acc toks = .ok tags) (hm : (n, v) ∈ tags) :
    (n, v) ∈ acc ∨ ∃ tok ∈ toks, parseTagToken tok = some (n, v) := by
  induction toks generalizing acc with
  | nil =>
    simp only [mergeTags, Except.ok.injEq] at hok
    subst hok
    exact Or.inl hm
  | cons tok rest ih =>
    simp only [mergeTags] at hok
    cases hp : parseTagToken tok with
    | none => rw [hp] at hok; cases hok
    | some p =>
      rw [hp] at hok
      rcases ih (insertTag p.1 p.2 acc) hok with h1 | h1
      · rcases insertTag_mem p.1 p.2 n v acc h1 with h2 | h2
        · refine Or.inr ⟨tok, List.mem_cons_self _ _, ?_⟩
          rw [hp, h2.1, h2.2]
        · exact Or.inl h2
      · obtain ⟨tok2, hmem2, hp2⟩ := h1
        exact Or.inr ⟨tok2, List.mem_cons_of_mem _ hmem2, hp2⟩

/-- A successful split at the first `=` reassembles to the original
token. -/
theorem splitFirstEq_eq (tok : Str) : ∀ k v : Str,
    splitFirstEq tok = some (k, v) → tok = k ++ '=' :: v := by
  induction tok with
  | nil => intro k v h; cases h
  | cons c rest ih =>
    intro k v h
    simp only [splitFirstEq] at h
    by_cases hc : c = '='
    · rw [if_pos hc] at h
      injection h with h2
      have hk : [] = k := congrArg (fun q : Str × Str => q.1) h2
      have hv : rest = v := congrArg (fun q : Str × Str => q.2) h2
      subst hc
      rw [← hk, ← hv]
      rfl
    · rw [if_neg hc] at h
      cases hs : splitFirstEq rest with
      | none => rw [hs] at h; cases h
      | some p =>
        rw [hs] at h
        simp only [Option.map_some', Option.some.injEq, Prod.mk.injEq] at h
        obtain ⟨hk, hv⟩ := h
        have hrest := ih p.1 p.2 (by rw [hs])
        rw [← hk, ← hv, hrest]
        rfl

/-- A tag token that parses to `(k, v)` is literally `k=v`. -/
theorem parseTagToken_eq (tok k v : Str)
    (h : parseTagToken tok = some (k, v)) : tok = k ++ '=' :: v := by
  unfold parseTagToken at h
  split at h
  · split at h
    · rename_i p hs hcond
      injection h with h2
      subst h2
      exact splitFirstEq_eq tok k v hs
    · cases h
  · cases h

/-- A successful line parse obtains its tag set from merging the tag
tokens after the third field. -/
theorem parseTcollector_tags (line : Str) (dp : DataPoint)
    (hok : parseTcollectorValue line = .ok dp) :
    mergeTags ((fields line).getD 0 []) [] ((fields line).drop 3)
      = .ok dp.Tags := by
  unfold parseTcollectorValue at hok
  split at hok
  · cases hok
  · split at hok
    · cases hok
    · split at hok
      · cases hok
      · split at hok
        · cases hok
        · split at hok
          · cases hok
          · rename_i tags hmerge
            injection hok with h2
            rw [← h2]
            exact hmerge

/-- C10: the translation never sanitizes label values.  For every
successfully parsed line, every label of the emitted metric is the
sanitized form of some tag key together with a value copied verbatim
from a `key=value` token of the line. -/
theorem label_values_not_sanitized (line : Str) (dp : DataPoint) (n v : Str)
    (hok : parseTcollectorValue line = .ok dp)
    (hmem : (n, v) ∈ (dpointToMetric dp).labels) :
    ∃ k, n = makeValidPromName k ∧
      ∃ tok, tok ∈ (fields line).drop 3 ∧ tok = k ++ '=' :: v := by
  obtain ⟨k, hk, hn⟩ := dpointLabels_mem dp n v hmem
  have htags := parseTcollector_tags line dp hok
  rcases mergeTags_mem ((fields line).getD 0 []) ((fields line).drop 3)
    [] dp.Tags k v htags hk with h1 | h1
  · cases h1
  · obtain ⟨tok, hmemtok, hp⟩ := h1
    exact ⟨k, hn, tok, hmemtok, parseTagToken_eq tok k v hp⟩

/-- Witness for C10: the tag value `c:d`, containing a character
outside `[A-Za-z0-9_]`, is carried verbatim under the sanitized key
`a_b`. -/
theorem label_values_not_sanitized_witness :
    ∃ k, "a_b".toList = makeValidPromName k ∧
      ∃ tok, tok ∈ (fields tagLineEx).drop 3 ∧
        tok = k ++ '=' :: "c:d".toList :=
  label_values_not_sanitized tagLineEx tagDpEx "a_b".toList "c:d".toList
    (by decide) (by decide)

end ScriptExporter
